import Mathlib

/-!
# Verification of the SMA Solar Webconnect sensor platform

A shallow embedding of `homeassistant/components/sensor/sma.py` (the SMA
Solar Webconnect sensor platform) together with proofs about its
configuration validation, sensor-definition registry construction, the
per-tick poll/update cycle and its backoff behaviour.

Modelling conventions:
* Python `dict`s become association lists `List (String × α)` with
  first-match lookup (`dlookup`) and in-place-replace-or-append insertion
  (`dinsert`), mirroring insertion-ordered Python dicts.
* Python integers become `Int`; Python floor division `//` becomes
  `Int.fdiv`.
* A Python expression that can raise (a `dict` subscript that can miss)
  returns `Option`; `none` models the exception escaping.
* The constants `pysma.KEY_*` come from the external `pysma` library
  (an external collaborator, not part of this repository); their exact
  string values are irrelevant to every property proved here, so they are
  modelled as opaque distinct strings.
-/

namespace SMA

/-- A sensor definition, the triple `(key, unit, factor)` stored in
`sensor_defs` (built-ins at lines 83-87, custom entries at line 93). -/
structure SensorDef where
  key : String
  unit : String
  factor : Int
deriving Repr, DecidableEq

/-- Python dict lookup `d[k]` on an association list: first binding wins. -/
def dlookup (a : String) : List (String × β) → Option β
  | [] => none
  | (k, v) :: es => if k = a then some v else dlookup a es

/-- Python dict assignment `d[k] = v`: replace the binding in place if the
key is present, else append it. -/
def dinsert (l : List (String × β)) (k : String) (v : β) : List (String × β) :=
  if l.any (fun p => p.1 = k) then
    l.map (fun p => if p.1 = k then (k, v) else p)
  else
    l ++ [(k, v)]

/-- The keys (in order) of an association list, `list(d.keys())`. -/
def dkeys (l : List (String × β)) : List String :=
  l.map Prod.fst

@[simp] theorem dlookup_nil (a : String) : dlookup a ([] : List (String × β)) = none := rfl

@[simp] theorem dlookup_cons (a k : String) (v : β) (es : List (String × β)) :
    dlookup a ((k, v) :: es) = if k = a then some v else dlookup a es := rfl

theorem dlookup_isSome_iff_mem_dkeys (a : String) (l : List (String × β)) :
    (dlookup a l).isSome = true ↔ a ∈ dkeys l := by
  induction l with
  | nil => simp [dkeys]
  | cons p es ih =>
    obtain ⟨k, v⟩ := p
    by_cases h : k = a
    · subst h; simp [dkeys]
    · simp [dkeys, h, Ne.symm h] at ih ⊢
      exact ih

theorem dlookup_eq_none_of_not_mem (a : String) (l : List (String × β))
    (h : a ∉ dkeys l) : dlookup a l = none := by
  cases hl : dlookup a l with
  | none => rfl
  | some v =>
    exact absurd ((dlookup_isSome_iff_mem_dkeys a l).1 (by simp [hl])) h

theorem dlookup_map_replace (a k : String) (v : β) (l : List (String × β))
    (hka : k ≠ a) :
    dlookup a (l.map (fun p => if p.1 = k then (k, v) else p)) = dlookup a l := by
  induction l with
  | nil => rfl
  | cons p es ih =>
    obtain ⟨k', v'⟩ := p
    simp only [List.map_cons]
    by_cases hk : k' = k
    · subst hk
      simp [hka, ih]
    · by_cases hka' : k' = a
      · subst hka'
        simp [hk]
      · simp [hk, hka', ih]

theorem dlookup_map_replace_self (a : String) (v : β) (l : List (String × β))
    (hmem : a ∈ dkeys l) :
    dlookup a (l.map (fun p => if p.1 = a then (a, v) else p)) = some v := by
  induction l with
  | nil => simp [dkeys] at hmem
  | cons p es ih =>
    obtain ⟨k', v'⟩ := p
    by_cases hk : k' = a
    · simp [List.map_cons, hk]
    · simp only [List.map_cons, if_neg hk, dlookup_cons, if_neg hk]
      refine ih ?_
      simp only [dkeys, List.map_cons, List.mem_cons] at hmem
      rcases hmem with h | h
      · exact absurd h.symm hk
      · exact h

theorem dlookup_append (a : String) (l l' : List (String × β)) :
    dlookup a (l ++ l') =
      match dlookup a l with
      | some w => some w
      | none => dlookup a l' := by
  induction l with
  | nil => simp
  | cons p es ih =>
    obtain ⟨k', v'⟩ := p
    by_cases hk : k' = a
    · simp [hk]
    · simpa [hk] using ih

theorem mem_dkeys_of_any (k : String) (l : List (String × β))
    (h : l.any (fun p => p.1 = k) = true) : k ∈ dkeys l := by
  simp only [List.any_eq_true, decide_eq_true_eq] at h
  obtain ⟨p, hp, hpk⟩ := h
  exact hpk ▸ List.mem_map_of_mem Prod.fst hp

theorem not_mem_dkeys_of_not_any (k : String) (l : List (String × β))
    (h : ¬ l.any (fun p => p.1 = k) = true) : k ∉ dkeys l := by
  intro hmem
  refine h ?_
  simp only [dkeys, List.mem_map] at hmem
  obtain ⟨p, hp, hpk⟩ := hmem
  simp only [List.any_eq_true, decide_eq_true_eq]
  exact ⟨p, hp, hpk⟩

theorem dlookup_dinsert (a k : String) (v : β) (l : List (String × β)) :
    dlookup a (dinsert l k v) = if k = a then some v else dlookup a l := by
  unfold dinsert
  by_cases hmem : l.any (fun p => p.1 = k) = true
  · rw [if_pos hmem]
    by_cases hka : k = a
    · subst hka
      rw [if_pos rfl]
      exact dlookup_map_replace_self k v l (mem_dkeys_of_any k l hmem)
    · rw [if_neg hka]
      exact dlookup_map_replace a k v l hka
  · rw [if_neg hmem, dlookup_append]
    have hnone := dlookup_eq_none_of_not_mem k l (not_mem_dkeys_of_not_any k l hmem)
    by_cases hka : k = a
    · subst hka
      simp [hnone]
    · cases hl : dlookup a l with
      | some w => simp [hka]
      | none => simp [hka]

/-! ## Constants and configuration schema (lines 26-74) -/

/-- The constant `SENSOR_OPTIONS` (lines 37-42): the names of the built-in metrics. -/
def SENSOR_OPTIONS : List String :=
  ["current_consumption", "current_power", "total_consumption", "total_yield"]

/-- Opaque constant from the external `pysma` library (line 84). -/
def KEY_CURRENT_CONSUMPTION_W : String := "pysma:current_consumption_w"

/-- Opaque constant from the external `pysma` library (line 85). -/
def KEY_CURRENT_POWER_W : String := "pysma:current_power_w"

/-- Opaque constant from the external `pysma` library (line 86). -/
def KEY_TOTAL_CONSUMPTION_KWH : String := "pysma:total_consumption_kwh"

/-- Opaque constant from the external `pysma` library (line 87). -/
def KEY_TOTAL_YIELD_KWH : String := "pysma:total_yield_kwh"

/-- The built-in sensor-definition table,
`dict(zip(SENSOR_OPTIONS, [...]))` (lines 83-87). -/
def builtin_sensor_defs : List (String × SensorDef) :=
  List.zip SENSOR_OPTIONS
    [⟨KEY_CURRENT_CONSUMPTION_W, "W", 1⟩,
     ⟨KEY_CURRENT_POWER_W, "W", 1⟩,
     ⟨KEY_TOTAL_CONSUMPTION_KWH, "kWh", 1000⟩,
     ⟨KEY_TOTAL_YIELD_KWH, "kWh", 1000⟩]

/-- The part of a validated platform configuration that the sensor logic
reads: `config[CONF_SENSORS]` (sensor name → list of attribute names) and
`config[CONF_CUSTOM]` (name → already-parsed custom definition). -/
structure Config where
  sensors : List (String × List String)
  custom : List (String × SensorDef)
deriving Repr, DecidableEq

/-- A raw custom entry before `CUSTOM_SCHEMA` validation: each voluptuous
field may be absent. Numeric factors are modelled as integers. -/
structure RawCustom where
  key : Option String
  unit : Option String
  factor : Option Int
deriving Repr, DecidableEq

/-- The voluptuous schema `CUSTOM_SCHEMA` (lines 59-64): `key` is required and must be a string of
length between 13 and 13, `unit` is required, `factor` is optional with
default `1`. -/
def CUSTOM_SCHEMA (r : RawCustom) : Option SensorDef :=
  match r.key, r.unit with
  | some k, some u =>
      if 13 ≤ k.length ∧ k.length ≤ 13 then
        some ⟨k, u, r.factor.getD 1⟩
      else none
  | _, _ => none

/-- The names a configured sensor or attribute may refer to:
`valid = list(conf[CONF_CUSTOM].keys()); valid.extend(SENSOR_OPTIONS)`
(lines 47-48). -/
def valid_names (conf : Config) : List String :=
  dkeys conf.custom ++ SENSOR_OPTIONS

/-- The inner loop of `_check_sensor_schema` (lines 52-55): raise on the
first attribute that is not a valid name. -/
def check_attrs (valid : List String) (sensor : String) :
    List String → Except String Unit
  | [] => .ok ()
  | attr :: rest =>
      if valid.contains attr then check_attrs valid sensor rest
      else .error (attr ++ " does not exist [" ++ sensor ++ "]")

/-- The outer loop of `_check_sensor_schema` (lines 49-55): raise on the
first sensor whose name or attributes are not valid names. -/
def check_sensors (valid : List String) :
    List (String × List String) → Except String Unit
  | [] => .ok ()
  | (sensor, attrs) :: rest =>
      if valid.contains sensor then
        match check_attrs valid sensor attrs with
        | .ok _ => check_sensors valid rest
        | .error e => .error e
      else .error (sensor ++ " does not exist")

/-- The function `_check_sensor_schema` (lines 45-56): validate that every configured
sensor name and attribute name is a custom name or a built-in name, and
return the configuration unchanged. -/
def check_sensor_schema (conf : Config) : Except String Config :=
  match check_sensors (valid_names conf) conf.sensors with
  | .ok _ => .ok conf
  | .error e => .error e

/-! ## Platform setup (lines 77-128) -/

/-- The sensor-definition registry after overlaying the custom entries on
the built-in table (lines 83-93): `sensor_defs[name] = (key, unit, factor)`
for each custom entry, replacing a built-in of the same name. -/
def sensor_defs_full (custom : List (String × SensorDef)) :
    List (String × SensorDef) :=
  custom.foldl (fun defs p => dinsert defs p.1 p.2) builtin_sensor_defs

/-- The list `used_sensors` (lines 97-101): every configured sensor name followed by
its attribute names, in configuration order. -/
def used_sensors (sensors : List (String × List String)) : List String :=
  sensors.foldl (fun acc p => acc ++ p.1 :: p.2) []

/-- The pruned registry (lines 103-105): drop every definition whose name
is not referenced by a configured sensor. -/
def sensor_defs_pruned (conf : Config) : List (String × SensorDef) :=
  (sensor_defs_full conf.custom).filter
    (fun p => (used_sensors conf.sensors).contains p.1)

/-- The list `names_to_query = list(sensor_defs.keys())` (line 127), taken from the
pruned registry. -/
def names_to_query (conf : Config) : List String :=
  dkeys (sensor_defs_pruned conf)

/-! ## The sensor entity (lines 159-210) -/

/-- The mutable state of an `SMAsensor` entity. `sensor_defs` is the
reference the constructor received — the *unpruned* registry, because the
pruning at lines 104-105 rebinds the local variable to a new dict, while
each sensor keeps the original one. -/
structure SMAsensor where
  name : String
  key : String
  unit_of_measurement : String
  state : Option Int
  sensor_defs : List (String × SensorDef)
  attr : List (String × String)
deriving Repr, DecidableEq

/-- The `SMAsensor` constructor (lines 162-168). The subscript
`sensor_defs[sensor_name]` can raise, hence `Option`. The attribute dict
`{att: "" for att in attr}` deduplicates repeated names. -/
def SMAsensor.init (sensor_name : String) (attr : List String)
    (sensor_defs : List (String × SensorDef)) : Option SMAsensor :=
  match dlookup sensor_name sensor_defs with
  | some d =>
      some ⟨sensor_name, d.key, d.unit, none, sensor_defs,
            attr.foldl (fun acc a => dinsert acc a "") []⟩
  | none => none

/-- The display string `'{0} {1}'.format(key_values[key],
self._sensor_defs[key][1])` of line 200; `none` when either subscript
raises. -/
def display_string (sensor_defs : List (String × SensorDef))
    (key_values : List (String × Int)) (key : String) : Option String :=
  match dlookup key key_values, dlookup key sensor_defs with
  | some v, some d => some (toString v ++ " " ++ d.unit)
  | _, _ => none

/-- The attribute loop of `async_update_values` (lines 199-203): rebuild
the attribute dict, recording whether any display string changed. -/
def updateAttrs (sensor_defs : List (String × SensorDef))
    (key_values : List (String × Int)) :
    List (String × String) → Option (List (String × String) × Bool)
  | [] => some ([], false)
  | (key, val) :: rest =>
      match display_string sensor_defs key_values key with
      | none => none
      | some newval =>
          match updateAttrs sensor_defs key_values rest with
          | none => none
          | some (rest', upd) =>
              if val ≠ newval then some ((key, newval) :: rest', true)
              else some ((key, val) :: rest', upd)

/-- The method `SMAsensor.async_update_values` (lines 195-210): update the attribute
strings and the primary state in place; the returned flag is whether a
state-change notification is requested (line 210). `none` models a
`KeyError` escaping from a subscript. -/
def SMAsensor.async_update_values (s : SMAsensor)
    (key_values : List (String × Int)) : Option (SMAsensor × Bool) :=
  match updateAttrs s.sensor_defs key_values s.attr with
  | none => none
  | some (attr', upd) =>
      match dlookup s.name key_values with
      | none => none
      | some new_state =>
          if some new_state ≠ s.state then
            some ({ s with attr := attr', state := some new_state }, true)
          else
            some ({ s with attr := attr' }, upd)

/-- The sensor-construction loop of `async_setup_platform` (lines 96-101):
one `SMAsensor` per configured sensor, each holding the unpruned registry;
`none` when a constructor subscript raises. -/
def setup_sensors_loop (sensor_defs : List (String × SensorDef)) :
    List (String × List String) → Option (List SMAsensor)
  | [] => some []
  | (name, attr) :: rest =>
      match SMAsensor.init name attr sensor_defs with
      | none => none
      | some s =>
          match setup_sensors_loop sensor_defs rest with
          | none => none
          | some ss => some (s :: ss)

/-- The list `hass_sensors` as built by `async_setup_platform` for a configuration. -/
def setup_sensors (conf : Config) : Option (List SMAsensor) :=
  setup_sensors_loop (sensor_defs_full conf.custom) conf.sensors

/-! ## The periodic update `async_sma` (lines 130-153) -/

/-- The initialisation `backoff = 0` (line 130): the initial value of the backoff counter. -/
def initial_backoff : Int := 0

/-- Substitution of missing values,
`values = [0 if val is None else val for val in values]` (line 143). -/
def substitute_missing (values : List (Option Int)) : List Int :=
  values.map (fun v => v.getD 0)

/-- Lines 144-145: `res = dict(zip(names_to_query, values))` followed by
`res = {key: val // sensor_defs[key][2] for key, val in res.items()}`.
`zip` truncates to the shorter list; `//` is Python floor division
(`Int.fdiv`); a missing registry entry raises, hence `Option`. -/
def compute_res (sensor_defs : List (String × SensorDef)) :
    List String → List Int → Option (List (String × Int))
  | [], _ => some []
  | _ :: _, [] => some []
  | name :: names, val :: vals =>
      match dlookup name sensor_defs with
      | none => none
      | some d =>
          match compute_res sensor_defs names vals with
          | none => none
          | some rest => some ((name, Int.fdiv val d.factor) :: rest)

/-- The per-sensor fan-out of lines 147-153: update every sensor with the
divided results, pairing each updated sensor with whether it requested a
notification task. -/
def update_all (key_values : List (String × Int)) :
    List SMAsensor → Option (List (SMAsensor × Bool))
  | [] => some []
  | s :: rest =>
      match s.async_update_values key_values with
      | none => none
      | some (s', changed) =>
          match update_all key_values rest with
          | none => none
          | some rest' => some ((s', changed) :: rest')

/-- One run of the tick handler `async_sma` (lines 132-153), parameterised
by the result of `await sma.read(keys_to_query)` (`none` = no result
object). Returns the new backoff counter, whether the poll call was
issued, and each sensor paired with its notification flag; the outer
`none` models an exception escaping from the update (in which case the
backoff counter is left unchanged, since line 141 was not reached). -/
def async_sma (sensor_defs : List (String × SensorDef))
    (names_to_query : List String) (hass_sensors : List SMAsensor)
    (backoff : Int) (readResult : Option (List (Option Int))) :
    Option (Int × Bool × List (SMAsensor × Bool)) :=
  if backoff > 1 then
    some (backoff - 1, false, hass_sensors.map (fun s => (s, false)))
  else
    match readResult with
    | none => some (3, true, hass_sensors.map (fun s => (s, false)))
    | some raw =>
        match compute_res sensor_defs names_to_query (substitute_missing raw) with
        | none => none
        | some res =>
            match update_all res hass_sensors with
            | none => none
            | some updated => some (backoff, true, updated)

/-- The backoff skeleton of `async_sma` (lines 135-141): given the current
counter and whether a read would fail, the next counter and whether the
poll call is issued on this tick. -/
def backoff_step (backoff : Int) (read_failed : Bool) : Int × Bool :=
  if backoff > 1 then (backoff - 1, false)
  else if read_failed then (3, true) else (backoff, true)

/-- Iterate the tick handler under the scheduler: one entry of `reads` per
scheduled tick (consumed only if the poll is issued), returning for each
tick whether a network call was made. Iteration stops if an exception
escapes a tick. -/
def run_ticks (sensor_defs : List (String × SensorDef))
    (ntq : List String) :
    List SMAsensor → Int → List (Option (List (Option Int))) → List Bool
  | _, _, [] => []
  | ss, b, r :: rs =>
      match async_sma sensor_defs ntq ss b r with
      | some (b', polled, out) =>
          polled :: run_ticks sensor_defs ntq (out.map Prod.fst) b' rs
      | none => []

/-! ## Association-list and registry lemmas -/

theorem mem_dkeys_dinsert (a k : String) (v : β) (l : List (String × β)) :
    a ∈ dkeys (dinsert l k v) ↔ k = a ∨ a ∈ dkeys l := by
  rw [← dlookup_isSome_iff_mem_dkeys, ← dlookup_isSome_iff_mem_dkeys,
    dlookup_dinsert]
  by_cases hka : k = a
  · simp [hka]
  · simp [hka]

theorem mem_dkeys_foldl_dinsert (a : String) (l : List (String × β))
    (base : List (String × β)) :
    a ∈ dkeys (l.foldl (fun acc p => dinsert acc p.1 p.2) base) ↔
      a ∈ dkeys l ∨ a ∈ dkeys base := by
  induction l generalizing base with
  | nil => simp [dkeys]
  | cons p rest ih =>
    obtain ⟨k, v⟩ := p
    rw [List.foldl_cons, ih, mem_dkeys_dinsert]
    simp only [dkeys, List.map_cons, List.mem_cons]
    constructor
    · rintro (h | h | h)
      · exact Or.inl (Or.inr h)
      · exact Or.inl (Or.inl h.symm)
      · exact Or.inr h
    · rintro ((h | h) | h)
      · exact Or.inr (Or.inl h.symm)
      · exact Or.inl h
      · exact Or.inr (Or.inr h)

theorem dlookup_foldl_dinsert (a : String) (l base : List (String × β))
    (hnd : (dkeys l).Nodup) :
    dlookup a (l.foldl (fun acc p => dinsert acc p.1 p.2) base) =
      match dlookup a l with
      | some d => some d
      | none => dlookup a base := by
  induction l generalizing base with
  | nil => simp
  | cons p rest ih =>
    obtain ⟨k, v⟩ := p
    simp only [dkeys, List.map_cons, List.nodup_cons] at hnd
    simp only [List.foldl_cons]
    rw [ih _ hnd.2]
    by_cases hka : k = a
    · subst hka
      have hnone : dlookup k rest = none :=
        dlookup_eq_none_of_not_mem k rest (by simpa [dkeys] using hnd.1)
      simp [hnone, dlookup_dinsert]
    · cases hr : dlookup a rest with
      | some d => simp [hr, hka]
      | none => simp [hr, hka, dlookup_dinsert]

theorem dlookup_filter_key (a : String) (c : String → Bool)
    (l : List (String × β)) :
    dlookup a (l.filter (fun p => c p.1)) =
      if c a then dlookup a l else none := by
  induction l with
  | nil => simp
  | cons p rest ih =>
    obtain ⟨k, v⟩ := p
    by_cases hk : k = a
    · subst hk
      by_cases hc : c k
      · simp [List.filter_cons, hc]
      · simp [List.filter_cons, hc, ih]
    · by_cases hc : c k
      · simp [List.filter_cons, hc, hk, ih]
      · simp [List.filter_cons, hc, hk, ih]

theorem mem_dkeys_filter_key (a : String) (c : String → Bool)
    (l : List (String × β)) :
    a ∈ dkeys (l.filter (fun p => c p.1)) ↔ a ∈ dkeys l ∧ c a = true := by
  rw [← dlookup_isSome_iff_mem_dkeys, ← dlookup_isSome_iff_mem_dkeys,
    dlookup_filter_key]
  by_cases hc : c a <;> simp [hc]

/-- The keys of the built-in table are exactly `SENSOR_OPTIONS`. -/
theorem dkeys_builtin : dkeys builtin_sensor_defs = SENSOR_OPTIONS := rfl

theorem mem_used_sensors (n : String) (sensors : List (String × List String)) :
    n ∈ used_sensors sensors ↔ ∃ p ∈ sensors, n = p.1 ∨ n ∈ p.2 := by
  have gen : ∀ (acc : List String),
      n ∈ sensors.foldl (fun acc p => acc ++ p.1 :: p.2) acc ↔
        n ∈ acc ∨ ∃ p ∈ sensors, n = p.1 ∨ n ∈ p.2 := by
    induction sensors with
    | nil => intro acc; simp
    | cons q rest ih =>
      intro acc
      rw [List.foldl_cons, ih]
      simp only [List.mem_append, List.mem_cons]
      constructor
      · rintro ((h | h | h) | ⟨p, hp, h⟩)
        · exact Or.inl h
        · exact Or.inr ⟨q, Or.inl rfl, Or.inl h⟩
        · exact Or.inr ⟨q, Or.inl rfl, Or.inr h⟩
        · exact Or.inr ⟨p, Or.inr hp, h⟩
      · rintro (h | ⟨p, hp, h⟩)
        · exact Or.inl (Or.inl h)
        · rcases hp with rfl | hp'
          · rcases h with h | h
            · exact Or.inl (Or.inr (Or.inl h))
            · exact Or.inl (Or.inr (Or.inr h))
          · exact Or.inr ⟨p, hp', h⟩
  simpa using gen []

theorem mem_dkeys_full (n : String) (custom : List (String × SensorDef)) :
    n ∈ dkeys (sensor_defs_full custom) ↔
      n ∈ dkeys custom ∨ n ∈ SENSOR_OPTIONS := by
  unfold sensor_defs_full
  rw [mem_dkeys_foldl_dinsert, dkeys_builtin]

theorem mem_dkeys_pruned (n : String) (conf : Config) :
    n ∈ dkeys (sensor_defs_pruned conf) ↔
      n ∈ dkeys (sensor_defs_full conf.custom) ∧
        n ∈ used_sensors conf.sensors := by
  unfold sensor_defs_pruned
  rw [mem_dkeys_filter_key]
  simp [List.elem_iff]

theorem mem_valid_names_full (n : String) (conf : Config)
    (h : n ∈ valid_names conf) :
    n ∈ dkeys (sensor_defs_full conf.custom) := by
  rw [mem_dkeys_full]
  rcases List.mem_append.mp h with h' | h'
  · exact Or.inl h'
  · exact Or.inr h'

/-! ## Lemmas about the attribute/state update -/

theorem updateAttrs_spec (defs : List (String × SensorDef))
    (kv : List (String × Int)) (attr : List (String × String)) :
    ∀ attr' upd, updateAttrs defs kv attr = some (attr', upd) →
      (∀ p ∈ attr', display_string defs kv p.1 = some p.2) ∧
      attr'.map Prod.fst = attr.map Prod.fst ∧
      (upd = false ↔ attr' = attr) := by
  induction attr with
  | nil =>
    intro attr' upd h
    simp only [updateAttrs, Option.some.injEq, Prod.mk.injEq] at h
    obtain ⟨rfl, rfl⟩ := h
    simp
  | cons p rest ih =>
    intro attr' upd h
    obtain ⟨key, val⟩ := p
    simp only [updateAttrs] at h
    cases hd : display_string defs kv key with
    | none => rw [hd] at h; exact absurd h (by simp)
    | some newval =>
      rw [hd] at h
      cases hr : updateAttrs defs kv rest with
      | none => rw [hr] at h; exact absurd h (by simp)
      | some pr =>
        obtain ⟨rest', updr⟩ := pr
        rw [hr] at h
        dsimp only at h
        obtain ⟨ha, hb, hc⟩ := ih rest' updr hr
        by_cases hne : val ≠ newval
        · rw [if_pos hne] at h
          simp only [Option.some.injEq, Prod.mk.injEq] at h
          obtain ⟨rfl, rfl⟩ := h
          refine ⟨?_, ?_, ?_⟩
          · intro q hq
            rcases List.mem_cons.mp hq with rfl | hq'
            · exact hd
            · exact ha q hq'
          · simp [hb]
          · constructor
            · intro hfalse; cases hfalse
            · intro heq
              have hpair := (List.cons_eq_cons.mp heq).1
              exact absurd (congrArg Prod.snd hpair).symm hne
        · rw [if_neg hne] at h
          push_neg at hne
          simp only [Option.some.injEq, Prod.mk.injEq] at h
          obtain ⟨rfl, rfl⟩ := h
          refine ⟨?_, ?_, ?_⟩
          · intro q hq
            rcases List.mem_cons.mp hq with rfl | hq'
            · rw [hd, hne]
            · exact ha q hq'
          · simp [hb]
          · rw [hc, List.cons_eq_cons]
            simp

theorem updateAttrs_noop (defs : List (String × SensorDef))
    (kv : List (String × Int)) (attr : List (String × String))
    (h : ∀ p ∈ attr, display_string defs kv p.1 = some p.2) :
    updateAttrs defs kv attr = some (attr, false) := by
  induction attr with
  | nil => rfl
  | cons p rest ih =>
    obtain ⟨key, val⟩ := p
    have hd : display_string defs kv key = some val :=
      h (key, val) (List.mem_cons_self _ _)
    have hr : updateAttrs defs kv rest = some (rest, false) :=
      ih (fun q hq => h q (List.mem_cons_of_mem _ hq))
    simp only [updateAttrs, hd, hr]
    simp

/-- The method `async_update_values` never changes the identity fields of a sensor. -/
theorem async_update_values_fields (s s1 : SMAsensor)
    (kv : List (String × Int)) (changed : Bool)
    (h : s.async_update_values kv = some (s1, changed)) :
    s1.name = s.name ∧ s1.key = s.key ∧
      s1.unit_of_measurement = s.unit_of_measurement ∧
      s1.sensor_defs = s.sensor_defs := by
  unfold SMAsensor.async_update_values at h
  cases hA : updateAttrs s.sensor_defs kv s.attr with
  | none => rw [hA] at h; exact absurd h (by simp)
  | some pr =>
    obtain ⟨attr', upd⟩ := pr
    rw [hA] at h
    dsimp only at h
    cases hN : dlookup s.name kv with
    | none => rw [hN] at h; exact absurd h (by simp)
    | some ns =>
      rw [hN] at h
      dsimp only at h
      by_cases hS : some ns ≠ s.state
      · rw [if_pos hS] at h
        simp only [Option.some.injEq, Prod.mk.injEq] at h
        obtain ⟨rfl, rfl⟩ := h
        exact ⟨rfl, rfl, rfl, rfl⟩
      · rw [if_neg hS] at h
        simp only [Option.some.injEq, Prod.mk.injEq] at h
        obtain ⟨rfl, rfl⟩ := h
        exact ⟨rfl, rfl, rfl, rfl⟩

/-! ## Lemmas about configuration validation -/

theorem check_attrs_ok_iff (valid : List String) (sensor : String)
    (attrs : List String) :
    check_attrs valid sensor attrs = .ok () ↔ ∀ a ∈ attrs, a ∈ valid := by
  induction attrs with
  | nil => simp [check_attrs]
  | cons a rest ih =>
    by_cases ha : valid.contains a
    · have hstep : check_attrs valid sensor (a :: rest) =
          check_attrs valid sensor rest := by
        simp only [check_attrs]
        rw [if_pos ha]
      rw [hstep, ih]
      constructor
      · intro h b hb
        rcases List.mem_cons.mp hb with rfl | hb'
        · exact List.elem_iff.mp ha
        · exact h b hb'
      · intro h b hb
        exact h b (List.mem_cons_of_mem _ hb)
    · have hstep : check_attrs valid sensor (a :: rest) =
          .error (a ++ " does not exist [" ++ sensor ++ "]") := by
        simp only [check_attrs]
        rw [if_neg ha]
      rw [hstep]
      constructor
      · intro h; cases h
      · intro h
        exact absurd (List.elem_iff.mpr (h a (List.mem_cons_self _ _))) ha

theorem check_sensors_ok_iff (valid : List String)
    (sensors : List (String × List String)) :
    check_sensors valid sensors = .ok () ↔
      ∀ p ∈ sensors, p.1 ∈ valid ∧ ∀ a ∈ p.2, a ∈ valid := by
  induction sensors with
  | nil => simp [check_sensors]
  | cons p rest ih =>
    obtain ⟨sensor, attrs⟩ := p
    by_cases hs : valid.contains sensor
    · cases hA : check_attrs valid sensor attrs with
      | ok u =>
        obtain rfl : u = () := rfl
        have hstep : check_sensors valid ((sensor, attrs) :: rest) =
            check_sensors valid rest := by
          simp only [check_sensors]
          rw [if_pos hs, hA]
        rw [hstep, ih]
        constructor
        · intro h q hq
          rcases List.mem_cons.mp hq with rfl | hq'
          · exact ⟨List.elem_iff.mp hs, (check_attrs_ok_iff _ _ _).mp hA⟩
          · exact h q hq'
        · intro h q hq
          exact h q (List.mem_cons_of_mem _ hq)
      | error e =>
        have hstep : check_sensors valid ((sensor, attrs) :: rest) =
            .error e := by
          simp only [check_sensors]
          rw [if_pos hs, hA]
        rw [hstep]
        constructor
        · intro h; cases h
        · intro h
          have := (check_attrs_ok_iff valid sensor attrs).mpr
            (h (sensor, attrs) (List.mem_cons_self _ _)).2
          rw [this] at hA
          cases hA
    · have hstep : check_sensors valid ((sensor, attrs) :: rest) =
          .error (sensor ++ " does not exist") := by
        simp only [check_sensors]
        rw [if_neg hs]
      rw [hstep]
      constructor
      · intro h; cases h
      · intro h
        exact absurd
          (List.elem_iff.mpr (h (sensor, attrs) (List.mem_cons_self _ _)).1) hs

theorem check_sensor_schema_ok_iff (conf : Config) (c : Config) :
    check_sensor_schema conf = .ok c ↔
      c = conf ∧
        ∀ p ∈ conf.sensors, p.1 ∈ valid_names conf ∧
          ∀ a ∈ p.2, a ∈ valid_names conf := by
  unfold check_sensor_schema
  cases hC : check_sensors (valid_names conf) conf.sensors with
  | ok u =>
    obtain rfl : u = () := rfl
    have := (check_sensors_ok_iff (valid_names conf) conf.sensors).mp hC
    simp only [Except.ok.injEq]
    exact ⟨fun h => ⟨h.symm, this⟩, fun h => h.1.symm⟩
  | error e =>
    simp only []
    constructor
    · intro h; cases h
    · rintro ⟨hc, h⟩
      have := (check_sensors_ok_iff (valid_names conf) conf.sensors).mpr h
      rw [this] at hC
      cases hC

/-! ## Existence lemmas: no lookup fails under a validated configuration -/

theorem compute_res_some (defs : List (String × SensorDef))
    (names : List String) (vals : List Int)
    (h : ∀ n ∈ names, n ∈ dkeys defs) :
    ∃ res, compute_res defs names vals = some res ∧
      dkeys res = names.take vals.length := by
  induction names generalizing vals with
  | nil => exact ⟨[], rfl, by simp [dkeys]⟩
  | cons n ns ih =>
    cases vals with
    | nil => exact ⟨[], rfl, by simp [dkeys]⟩
    | cons v vs =>
      have hn : (dlookup n defs).isSome :=
        (dlookup_isSome_iff_mem_dkeys n defs).mpr (h n (List.mem_cons_self _ _))
      obtain ⟨d, hd⟩ := Option.isSome_iff_exists.mp hn
      obtain ⟨rest, hrest, hkeys⟩ :=
        ih vs (fun m hm => h m (List.mem_cons_of_mem _ hm))
      refine ⟨(n, Int.fdiv v d.factor) :: rest, ?_, ?_⟩
      · simp only [compute_res, hd, hrest]
      · simp [dkeys, List.take_succ_cons] at hkeys ⊢
        exact hkeys

theorem updateAttrs_some (defs : List (String × SensorDef))
    (kv : List (String × Int)) (attr : List (String × String))
    (h : ∀ p ∈ attr, p.1 ∈ dkeys kv ∧ p.1 ∈ dkeys defs) :
    ∃ r, updateAttrs defs kv attr = some r := by
  induction attr with
  | nil => exact ⟨([], false), rfl⟩
  | cons p rest ih =>
    obtain ⟨key, val⟩ := p
    obtain ⟨h1, h2⟩ := h (key, val) (List.mem_cons_self _ _)
    obtain ⟨v, hv⟩ := Option.isSome_iff_exists.mp
      ((dlookup_isSome_iff_mem_dkeys key kv).mpr h1)
    obtain ⟨d, hd⟩ := Option.isSome_iff_exists.mp
      ((dlookup_isSome_iff_mem_dkeys key defs).mpr h2)
    obtain ⟨⟨rest', upd⟩, hrest⟩ :=
      ih (fun q hq => h q (List.mem_cons_of_mem _ hq))
    have hdisp : display_string defs kv key = some (toString v ++ " " ++ d.unit) := by
      unfold display_string
      rw [hv, hd]
    by_cases hne : val ≠ (toString v ++ " " ++ d.unit)
    · exact ⟨((key, toString v ++ " " ++ d.unit) :: rest', true), by
        simp only [updateAttrs, hdisp, hrest]
        rw [if_pos hne]⟩
    · exact ⟨((key, val) :: rest', upd), by
        simp only [updateAttrs, hdisp, hrest]
        rw [if_neg hne]⟩

theorem async_update_values_some (s : SMAsensor) (kv : List (String × Int))
    (hattr : ∀ p ∈ s.attr, p.1 ∈ dkeys kv ∧ p.1 ∈ dkeys s.sensor_defs)
    (hname : s.name ∈ dkeys kv) :
    ∃ r, s.async_update_values kv = some r := by
  obtain ⟨⟨attr', upd⟩, hA⟩ := updateAttrs_some s.sensor_defs kv s.attr hattr
  obtain ⟨ns, hN⟩ := Option.isSome_iff_exists.mp
    ((dlookup_isSome_iff_mem_dkeys s.name kv).mpr hname)
  unfold SMAsensor.async_update_values
  rw [hA]
  dsimp only
  rw [hN]
  dsimp only
  by_cases hS : some ns ≠ s.state
  · exact ⟨_, by rw [if_pos hS]⟩
  · exact ⟨_, by rw [if_neg hS]⟩

theorem update_all_some (kv : List (String × Int)) (sensors : List SMAsensor)
    (h : ∀ s ∈ sensors,
      (∀ p ∈ s.attr, p.1 ∈ dkeys kv ∧ p.1 ∈ dkeys s.sensor_defs) ∧
        s.name ∈ dkeys kv) :
    ∃ out, update_all kv sensors = some out := by
  induction sensors with
  | nil => exact ⟨[], rfl⟩
  | cons s rest ih =>
    obtain ⟨h1, h2⟩ := h s (List.mem_cons_self _ _)
    obtain ⟨⟨s', changed⟩, hs⟩ := async_update_values_some s kv h1 h2
    obtain ⟨out, hout⟩ := ih (fun q hq => h q (List.mem_cons_of_mem _ hq))
    exact ⟨(s', changed) :: out, by simp only [update_all, hs, hout]⟩

theorem mem_dkeys_attr_foldl (k : String) (attrs : List String)
    (acc : List (String × String)) :
    k ∈ dkeys (attrs.foldl (fun acc a => dinsert acc a "") acc) ↔
      k ∈ attrs ∨ k ∈ dkeys acc := by
  induction attrs generalizing acc with
  | nil => simp
  | cons a rest ih =>
    rw [List.foldl_cons, ih]
    rw [mem_dkeys_dinsert]
    simp only [List.mem_cons]
    tauto

theorem SMAsensor_init_spec (sensor_name : String) (attr : List String)
    (sensor_defs : List (String × SensorDef)) (s : SMAsensor)
    (h : SMAsensor.init sensor_name attr sensor_defs = some s) :
    s.name = sensor_name ∧ s.sensor_defs = sensor_defs ∧ s.state = none ∧
      ∀ k ∈ dkeys s.attr, k ∈ attr := by
  unfold SMAsensor.init at h
  cases hd : dlookup sensor_name sensor_defs with
  | none => rw [hd] at h; exact absurd h (by simp)
  | some d =>
    rw [hd] at h
    simp only [Option.some.injEq] at h
    subst h
    refine ⟨rfl, rfl, rfl, ?_⟩
    intro k hk
    have := (mem_dkeys_attr_foldl k attr []).mp hk
    simpa [dkeys] using this

theorem SMAsensor_init_some (sensor_name : String) (attr : List String)
    (sensor_defs : List (String × SensorDef))
    (h : sensor_name ∈ dkeys sensor_defs) :
    ∃ s, SMAsensor.init sensor_name attr sensor_defs = some s := by
  obtain ⟨d, hd⟩ := Option.isSome_iff_exists.mp
    ((dlookup_isSome_iff_mem_dkeys sensor_name sensor_defs).mpr h)
  exact ⟨_, by unfold SMAsensor.init; rw [hd]⟩

theorem setup_sensors_loop_some (defs : List (String × SensorDef))
    (confSensors : List (String × List String))
    (h : ∀ p ∈ confSensors, p.1 ∈ dkeys defs) :
    ∃ ss, setup_sensors_loop defs confSensors = some ss ∧
      ∀ s ∈ ss, ∃ p ∈ confSensors,
        s.name = p.1 ∧ s.sensor_defs = defs ∧ ∀ k ∈ dkeys s.attr, k ∈ p.2 := by
  induction confSensors with
  | nil => exact ⟨[], rfl, by simp⟩
  | cons p rest ih =>
    obtain ⟨name, attrList⟩ := p
    obtain ⟨s, hs⟩ := SMAsensor_init_some name attrList defs
      (h (name, attrList) (List.mem_cons_self _ _))
    obtain ⟨ss, hss, hspec⟩ := ih (fun q hq => h q (List.mem_cons_of_mem _ hq))
    obtain ⟨hn, hdefs, -, hattr⟩ := SMAsensor_init_spec name attrList defs s hs
    refine ⟨s :: ss, by simp only [setup_sensors_loop, hs, hss], ?_⟩
    intro t ht
    rcases List.mem_cons.mp ht with rfl | ht'
    · exact ⟨(name, attrList), List.mem_cons_self _ _, hn, hdefs, hattr⟩
    · obtain ⟨q, hq, hspec'⟩ := hspec t ht'
      exact ⟨q, List.mem_cons_of_mem _ hq, hspec'⟩

theorem compute_res_spec (defs : List (String × SensorDef)) :
    ∀ (names : List String) (vals : List Int) (res : List (String × Int)),
      compute_res defs names vals = some res →
      ∀ (i : Nat) (pr : String × Int), res[i]? = some pr →
        ∃ n v d, names[i]? = some n ∧ vals[i]? = some v ∧
          dlookup n defs = some d ∧ pr = (n, Int.fdiv v d.factor) := by
  intro names
  induction names with
  | nil =>
    intro vals res h i pr hi
    obtain rfl : res = [] := by
      cases vals <;> simpa [compute_res] using h.symm
    simp at hi
  | cons n ns ih =>
    intro vals res h i pr hi
    cases vals with
    | nil =>
      obtain rfl : res = [] := by simpa [compute_res] using h.symm
      simp at hi
    | cons v vs =>
      simp only [compute_res] at h
      cases hd : dlookup n defs with
      | none => rw [hd] at h; exact absurd h (by simp)
      | some d =>
        rw [hd] at h
        dsimp only at h
        cases hc : compute_res defs ns vs with
        | none => rw [hc] at h; exact absurd h (by simp)
        | some rest =>
          rw [hc] at h
          dsimp only at h
          simp only [Option.some.injEq] at h
          subst h
          cases i with
          | zero =>
            simp only [List.getElem?_cons_zero, Option.some.injEq] at hi
            exact ⟨n, v, d, by simp, by simp, hd, hi.symm⟩
          | succ j =>
            simp only [List.getElem?_cons_succ] at hi ⊢
            exact ih vs rest hc j pr hi

/-! ## The claims -/

/-- C10. The backoff counter always lies in `{0, 1, 2, 3}`: it starts
at 0 (so the very first tick issues a poll), is set to 3 exactly by a tick
that issued a poll which returned no result, is decremented (with no poll)
exactly while greater than 1, and once at least 1 it never returns to 0 —
at 1 every tick still issues a poll. -/
theorem sma_C10 (defs : List (String × SensorDef)) (ntq : List String)
    (ss : List SMAsensor) (b : Int)
    (hb : b = 0 ∨ b = 1 ∨ b = 2 ∨ b = 3)
    (read : Option (List (Option Int))) (b' : Int) (polled : Bool)
    (out : List (SMAsensor × Bool))
    (h : async_sma defs ntq ss b read = some (b', polled, out)) :
    (b' = 0 ∨ b' = 1 ∨ b' = 2 ∨ b' = 3) ∧
    initial_backoff = 0 ∧
    ((b = 0 ∨ b = 1) → polled = true) ∧
    (b' = 3 ↔ polled = true ∧ read = none) ∧
    (b > 1 → b' = b - 1 ∧ polled = false) ∧
    (1 ≤ b → 1 ≤ b') := by
  unfold async_sma at h
  by_cases hgt : b > 1
  · rw [if_pos hgt] at h
    simp only [Option.some.injEq, Prod.mk.injEq] at h
    obtain ⟨h1, h2, -⟩ := h
    subst h1; subst h2
    refine ⟨by omega, rfl, by omega, ?_, fun _ => ⟨rfl, rfl⟩, by omega⟩
    constructor
    · intro h3; omega
    · rintro ⟨hf, -⟩; cases hf
  · rw [if_neg hgt] at h
    cases read with
    | none =>
      simp only [Option.some.injEq, Prod.mk.injEq] at h
      obtain ⟨h1, h2, -⟩ := h
      subst h1; subst h2
      exact ⟨by omega, rfl, fun _ => rfl, by simp, fun hc => absurd hc hgt,
        by omega⟩
    | some raw =>
      dsimp only at h
      cases hcr : compute_res defs ntq (substitute_missing raw) with
      | none => rw [hcr] at h; exact absurd h (by simp)
      | some res =>
        rw [hcr] at h
        dsimp only at h
        cases hua : update_all res ss with
        | none => rw [hua] at h; exact absurd h (by simp)
        | some updated =>
          rw [hua] at h
          dsimp only at h
          simp only [Option.some.injEq, Prod.mk.injEq] at h
          obtain ⟨h1, h2, -⟩ := h
          subst h1; subst h2
          refine ⟨hb, rfl, fun _ => rfl, ?_, fun hc => absurd hc hgt,
            fun h1 => h1⟩
          constructor
          · intro h3; omega
          · rintro ⟨-, hf⟩; cases hf

/-- Witness for `sma_C10` at a concrete state: starting from backoff 0
with a failed read, the tick polls and sets the counter to 3. -/
theorem sma_C10_witness :
    ((3 : Int) = 0 ∨ (3 : Int) = 1 ∨ (3 : Int) = 2 ∨ (3 : Int) = 3) ∧
    initial_backoff = 0 ∧
    (((0 : Int) = 0 ∨ (0 : Int) = 1) → true = true) ∧
    ((3 : Int) = 3 ↔ true = true ∧
      (none : Option (List (Option Int))) = none) ∧
    ((0 : Int) > 1 → (3 : Int) = 0 - 1 ∧ true = false) ∧
    (1 ≤ (0 : Int) → 1 ≤ (3 : Int)) :=
  sma_C10 [] [] [] 0 (Or.inl rfl) none 3 true [] rfl

/-- C1, counterexample. The claim says that after a tick whose poll
returns no result object, the next 3 scheduled ticks issue no network call
and the 4th issues one — i.e. the poll trace would be
`[true, false, false, false]` over the failing tick and the next three.
In fact, with `backoff = 3` and the guard `backoff > 1`, only 2 ticks are
skipped: the concrete trace is `[true, false, false, true]`, the 3rd
scheduled tick after the failure already polls. -/
theorem sma_C1_counterexample :
    run_ticks [] [] [] initial_backoff [none, some [], some [], some []] =
      [true, false, false, true] ∧
    ¬ run_ticks [] [] [] initial_backoff [none, some [], some [], some []] =
      [true, false, false, false] := by
  constructor
  · rfl
  · intro h
    cases h

/-- C1, amended. After a run of the tick handler in which the poll
returns no result object, the next **2** scheduled ticks issue no network
call, and the **3rd** scheduled tick after the failure issues a poll call
again. -/
theorem sma_C1_amended (defs : List (String × SensorDef)) (ntq : List String)
    (ss : List SMAsensor) (b : Int) (hb : b ≤ 1)
    (r1 r2 : Option (List (Option Int))) :
    async_sma defs ntq ss b none =
      some (3, true, ss.map (fun s => (s, false))) ∧
    (∀ ss1, async_sma defs ntq ss1 3 r1 =
      some (2, false, ss1.map (fun s => (s, false)))) ∧
    (∀ ss2, async_sma defs ntq ss2 2 r2 =
      some (1, false, ss2.map (fun s => (s, false)))) ∧
    (∀ ss3 r3 b' p out,
      async_sma defs ntq ss3 1 r3 = some (b', p, out) → p = true) ∧
    (∀ ss3, async_sma defs ntq ss3 1 none =
      some (3, true, ss3.map (fun s => (s, false)))) := by
  refine ⟨?_, ?_, ?_, ?_, ?_⟩
  · unfold async_sma
    rw [if_neg (by omega)]
  · intro ss1
    unfold async_sma
    rw [if_pos (by omega)]
    norm_num
  · intro ss2
    unfold async_sma
    rw [if_pos (by omega)]
    norm_num
  · intro ss3 r3 b' p out h
    unfold async_sma at h
    rw [if_neg (by omega)] at h
    cases r3 with
    | none =>
      simp only [Option.some.injEq, Prod.mk.injEq] at h
      exact h.2.1.symm
    | some raw =>
      dsimp only at h
      cases hcr : compute_res defs ntq (substitute_missing raw) with
      | none => rw [hcr] at h; exact absurd h (by simp)
      | some res =>
        rw [hcr] at h
        dsimp only at h
        cases hua : update_all res ss3 with
        | none => rw [hua] at h; exact absurd h (by simp)
        | some updated =>
          rw [hua] at h
          dsimp only at h
          simp only [Option.some.injEq, Prod.mk.injEq] at h
          exact h.2.1.symm
  · intro ss3
    unfold async_sma
    rw [if_neg (by omega)]

/-- Witness for `sma_C1_amended` at backoff 0 with no sensors: the failing
tick polls and sets the counter to 3. -/
theorem sma_C1_amended_witness :
    async_sma [] [] [] 0 none = some (3, true, ([] : List SMAsensor).map
      (fun s => (s, false))) :=
  (sma_C1_amended [] [] [] 0 (by norm_num) none none).1

/-- C2, counterexample. The claim says the division truncates
fractional results for *every* raw value. Python `//` is floor division:
at raw value `-1` with the built-in total-yield divisor `1000` the code
produces `-1` (the floor of `-0.001`), while truncating division
(`Int.tdiv`) produces `0`. -/
theorem sma_C2_counterexample :
    compute_res builtin_sensor_defs ["total_yield"] [-1] =
      some [("total_yield", -1)] ∧
    Int.tdiv (-1) 1000 = 0 ∧ ((-1 : Int) ≠ 0) := by
  refine ⟨by decide, by decide, by decide⟩

/-- C2, amended. Every effective value equals the raw value divided by
its definition's divisor using *floor* division (`Int.fdiv`, Python `//`),
which agrees with truncating division for nonnegative operands; the
built-in total-yield definition has divisor 1000 and unit `kWh`, and raw
value 123456 yields 123. -/
theorem sma_C2_amended (defs : List (String × SensorDef))
    (names : List String) (vals : List Int) (res : List (String × Int))
    (h : compute_res defs names vals = some res) :
    (∀ (i : Nat) (pr : String × Int), res[i]? = some pr →
      ∃ n v d, names[i]? = some n ∧ vals[i]? = some v ∧
        dlookup n defs = some d ∧ pr = (n, Int.fdiv v d.factor)) ∧
    (∀ v d : Int, 0 ≤ v → 0 ≤ d → Int.fdiv v d = Int.tdiv v d) ∧
    dlookup "total_yield" builtin_sensor_defs =
      some ⟨KEY_TOTAL_YIELD_KWH, "kWh", 1000⟩ ∧
    Int.fdiv 123456 1000 = 123 :=
  ⟨compute_res_spec defs names vals res h,
   fun _ _ hv hd => Int.fdiv_eq_tdiv hv hd,
   by decide, by decide⟩

/-- Witness for `sma_C2_amended` on the total-yield example. -/
theorem sma_C2_amended_witness :
    compute_res builtin_sensor_defs ["total_yield"] [123456] =
      some [("total_yield", 123)] ∧ Int.fdiv 123456 1000 = 123 :=
  ⟨by decide,
   (sma_C2_amended builtin_sensor_defs ["total_yield"] [123456]
      [("total_yield", 123)] (by decide)).2.2.2⟩

/-- C4. A poll result in which individual values are `null` is treated
exactly like one in which those values are reported as `0` — the whole
tick behaves identically (no error is raised for a missing value), and
positionally every `null` becomes the effective value `0`. -/
theorem sma_C4 (defs : List (String × SensorDef)) (ntq : List String)
    (ss : List SMAsensor) (b : Int) (raw : List (Option Int)) :
    async_sma defs ntq ss b (some raw) =
      async_sma defs ntq ss b (some (raw.map (fun v => some (v.getD 0)))) ∧
    (∀ i : Nat, raw[i]? = some none →
      (substitute_missing raw)[i]? = some 0) := by
  constructor
  · have hsub : substitute_missing (raw.map (fun v => some (v.getD 0))) =
        substitute_missing raw := by
      unfold substitute_missing
      rw [List.map_map]
      simp [Function.comp]
    unfold async_sma
    dsimp only
    rw [hsub]
  · intro i hi
    unfold substitute_missing
    rw [List.getElem?_map, hi]
    rfl

/-- Witness for `sma_C4`: a one-element poll result `[null]` behaves like
`[0]`, and the effective value at position 0 is 0. -/
theorem sma_C4_witness :
    (substitute_missing [none])[0]? = some 0 :=
  (sma_C4 [] [] [] 0 [none]).2 0 (by decide)

/-- C7. A custom sensor definition parses exactly when its key is
present with exactly 13 characters and its unit is supplied; the factor
defaults to 1 when omitted, and is taken verbatim when supplied. -/
theorem sma_C7 (r : RawCustom) :
    ((∃ d, CUSTOM_SCHEMA r = some d) ↔
      ∃ k u, r.key = some k ∧ k.length = 13 ∧ r.unit = some u) ∧
    (∀ d, CUSTOM_SCHEMA r = some d →
      d.key.length = 13 ∧ r.key = some d.key ∧ r.unit = some d.unit ∧
        (r.factor = none → d.factor = 1) ∧
        (∀ f, r.factor = some f → d.factor = f)) := by
  cases hk : r.key with
  | none =>
    constructor
    · constructor
      · rintro ⟨d, hd⟩
        rw [CUSTOM_SCHEMA, hk] at hd
        cases r.unit <;> cases hd
      · rintro ⟨k, u, hke, -, -⟩
        cases hke
    · intro d hd
      rw [CUSTOM_SCHEMA, hk] at hd
      cases r.unit <;> cases hd
  | some k =>
    cases hu : r.unit with
    | none =>
      constructor
      · constructor
        · rintro ⟨d, hd⟩
          rw [CUSTOM_SCHEMA, hk, hu] at hd
          cases hd
        · rintro ⟨k', u', -, -, hue⟩
          cases hue
      · intro d hd
        rw [CUSTOM_SCHEMA, hk, hu] at hd
        cases hd
    | some u =>
      by_cases hlen : k.length = 13
      · have hcond : 13 ≤ k.length ∧ k.length ≤ 13 := by omega
        have heq : CUSTOM_SCHEMA r = some ⟨k, u, r.factor.getD 1⟩ := by
          rw [CUSTOM_SCHEMA, hk, hu]
          dsimp only
          rw [if_pos hcond]
        constructor
        · exact ⟨fun _ => ⟨k, u, rfl, hlen, rfl⟩, fun _ => ⟨_, heq⟩⟩
        · intro d hd
          rw [heq] at hd
          simp only [Option.some.injEq] at hd
          subst hd
          refine ⟨hlen, rfl, rfl, ?_, ?_⟩
          · intro hf; rw [hf]; rfl
          · intro f hf; rw [hf]; rfl
      · have heq : CUSTOM_SCHEMA r = none := by
          rw [CUSTOM_SCHEMA, hk, hu]
          dsimp only
          rw [if_neg (by omega)]
        constructor
        · constructor
          · rintro ⟨d, hd⟩
            rw [heq] at hd
            cases hd
          · rintro ⟨k', u', hke, hlen', -⟩
            simp only [Option.some.injEq] at hke
            subst hke
            exact absurd hlen' hlen
        · intro d hd
          rw [heq] at hd
          cases hd

/-- Witness for `sma_C7`: a 13-character key with an explicit unit and no
factor parses with factor 1. -/
theorem sma_C7_witness :
    ("6100_40263F00" : String).length = 13 ∧
      (⟨"6100_40263F00", "W", 1⟩ : SensorDef).factor = 1 :=
  ⟨(((sma_C7 ⟨some "6100_40263F00", some "W", none⟩).2
      ⟨"6100_40263F00", "W", 1⟩) (by decide)).1,
   (((sma_C7 ⟨some "6100_40263F00", some "W", none⟩).2
      ⟨"6100_40263F00", "W", 1⟩) (by decide)).2.2.2.1 rfl⟩

/-- C6. `_check_sensor_schema` accepts a configuration (returning it
unchanged) exactly when every configured sensor name and every attribute
name resolves to a declared custom name or a built-in metric name; any
configuration with an unresolved name is rejected with an error. This
check runs inside `PLATFORM_SCHEMA` (line 74), i.e. at configuration load
time, before `async_setup_platform` starts any polling. -/
theorem sma_C6 (conf : Config) :
    (check_sensor_schema conf = .ok conf ↔
      ∀ p ∈ conf.sensors, p.1 ∈ valid_names conf ∧
        ∀ a ∈ p.2, a ∈ valid_names conf) ∧
    (∀ c, check_sensor_schema conf = .ok c → c = conf) ∧
    ((∃ p ∈ conf.sensors, p.1 ∉ valid_names conf ∨
        ∃ a ∈ p.2, a ∉ valid_names conf) →
      ∃ e, check_sensor_schema conf = .error e) := by
  refine ⟨?_, ?_, ?_⟩
  · rw [check_sensor_schema_ok_iff]
    exact ⟨fun h => h.2, fun h => ⟨rfl, h⟩⟩
  · intro c hc
    exact ((check_sensor_schema_ok_iff conf c).mp hc).1
  · rintro ⟨p, hp, hbad⟩
    cases hcheck : check_sensor_schema conf with
    | ok c =>
      obtain ⟨-, hall⟩ := (check_sensor_schema_ok_iff conf c).mp hcheck
      obtain ⟨h1, h2⟩ := hall p hp
      rcases hbad with hbad | ⟨a, ha, hbad⟩
      · exact absurd h1 hbad
      · exact absurd (h2 a ha) hbad
    | error e => exact ⟨e, rfl⟩

/-- Witness for `sma_C6`: a configuration using the built-in total-yield
name with a built-in attribute validates. -/
theorem sma_C6_witness :
    check_sensor_schema ⟨[("total_yield", ["current_power"])], []⟩ =
      .ok ⟨[("total_yield", ["current_power"])], []⟩ :=
  (sma_C6 ⟨[("total_yield", ["current_power"])], []⟩).1.mpr (by decide)

theorem display_string_congr (defs : List (String × SensorDef))
    (kv1 kv2 : List (String × Int)) (k : String)
    (h : dlookup k kv2 = dlookup k kv1) :
    display_string defs kv2 k = display_string defs kv1 k := by
  unfold display_string
  rw [h]

/-- C3. `async_update_values` reports a change exactly when the new
primary state or some attribute display string differs from the previous
cycle (equivalently: the flag is `true` iff the stored state or attribute
dict differs afterwards), and applying the same value mapping again
reports no change — so no notification task is produced on the second
application. -/
theorem sma_C3 (s s1 : SMAsensor) (kv : List (String × Int)) (changed : Bool)
    (h : s.async_update_values kv = some (s1, changed)) :
    (changed = true ↔ (s1.state ≠ s.state ∨ s1.attr ≠ s.attr)) ∧
    s1.async_update_values kv = some (s1, false) := by
  unfold SMAsensor.async_update_values at h
  cases hA : updateAttrs s.sensor_defs kv s.attr with
  | none => rw [hA] at h; exact absurd h (by simp)
  | some pr =>
    obtain ⟨attr', upd⟩ := pr
    rw [hA] at h
    dsimp only at h
    cases hN : dlookup s.name kv with
    | none => rw [hN] at h; exact absurd h (by simp)
    | some ns =>
      rw [hN] at h
      dsimp only at h
      obtain ⟨hdisp, hkeys, hupd⟩ :=
        updateAttrs_spec s.sensor_defs kv s.attr attr' upd hA
      have hnoop : updateAttrs s.sensor_defs kv attr' = some (attr', false) :=
        updateAttrs_noop s.sensor_defs kv attr' hdisp
      by_cases hS : some ns ≠ s.state
      · rw [if_pos hS] at h
        simp only [Option.some.injEq, Prod.mk.injEq] at h
        obtain ⟨rfl, rfl⟩ := h
        constructor
        · exact ⟨fun _ => Or.inl hS, fun _ => rfl⟩
        · unfold SMAsensor.async_update_values
          dsimp only
          rw [hnoop]
          dsimp only
          rw [hN]
          dsimp only
          rw [if_neg (fun hc => hc rfl)]
      · rw [if_neg hS] at h
        simp only [Option.some.injEq, Prod.mk.injEq] at h
        obtain ⟨rfl, rfl⟩ := h
        constructor
        · constructor
          · intro hu
            refine Or.inr ?_
            intro heq
            have hfalse := hupd.mpr heq
            rw [hu] at hfalse
            cases hfalse
          · rintro (hst | hat)
            · exact absurd rfl hst
            · cases hu2 : upd with
              | false => exact absurd (hupd.mp hu2) hat
              | true => rfl
        · unfold SMAsensor.async_update_values
          dsimp only
          rw [hnoop]
          dsimp only
          rw [hN]
          dsimp only
          rw [if_neg hS]

/-- Witness for `sma_C3`: a concrete sensor with one attribute; the first
application changes it, the second reports no change. -/
theorem sma_C3_witness :
    ((true = true) ↔
      ((⟨"a", "k1", "W", some 5,
          [("a", ⟨"k1", "W", 1⟩), ("b", ⟨"k2", "kWh", 1000⟩)],
          [("b", "7 kWh")]⟩ : SMAsensor).state ≠
        (⟨"a", "k1", "W", none,
          [("a", ⟨"k1", "W", 1⟩), ("b", ⟨"k2", "kWh", 1000⟩)],
          [("b", "")]⟩ : SMAsensor).state ∨
      (⟨"a", "k1", "W", some 5,
          [("a", ⟨"k1", "W", 1⟩), ("b", ⟨"k2", "kWh", 1000⟩)],
          [("b", "7 kWh")]⟩ : SMAsensor).attr ≠
        (⟨"a", "k1", "W", none,
          [("a", ⟨"k1", "W", 1⟩), ("b", ⟨"k2", "kWh", 1000⟩)],
          [("b", "")]⟩ : SMAsensor).attr)) ∧
    (⟨"a", "k1", "W", some 5,
        [("a", ⟨"k1", "W", 1⟩), ("b", ⟨"k2", "kWh", 1000⟩)],
        [("b", "7 kWh")]⟩ : SMAsensor).async_update_values
      [("a", 5), ("b", 7)] =
      some (⟨"a", "k1", "W", some 5,
        [("a", ⟨"k1", "W", 1⟩), ("b", ⟨"k2", "kWh", 1000⟩)],
        [("b", "7 kWh")]⟩, false) :=
  sma_C3
    ⟨"a", "k1", "W", none,
      [("a", ⟨"k1", "W", 1⟩), ("b", ⟨"k2", "kWh", 1000⟩)], [("b", "")]⟩
    ⟨"a", "k1", "W", some 5,
      [("a", ⟨"k1", "W", 1⟩), ("b", ⟨"k2", "kWh", 1000⟩)], [("b", "7 kWh")]⟩
    [("a", 5), ("b", 7)] true (by decide)

/-- C5. Frame property of the per-sensor update: if a second value
mapping agrees with the first on the sensor's primary key and on every
one of its attribute keys (only *other* keys may have changed), then
applying it to the updated sensor reports no change and leaves the sensor
exactly as it was — the sensor is not notified. -/
theorem sma_C5 (s s1 : SMAsensor) (kv1 kv2 : List (String × Int))
    (c1 : Bool)
    (h1 : s.async_update_values kv1 = some (s1, c1))
    (hname : dlookup s.name kv2 = dlookup s.name kv1)
    (hattr : ∀ k ∈ dkeys s.attr, dlookup k kv2 = dlookup k kv1) :
    s1.async_update_values kv2 = some (s1, false) := by
  unfold SMAsensor.async_update_values at h1
  cases hA : updateAttrs s.sensor_defs kv1 s.attr with
  | none => rw [hA] at h1; exact absurd h1 (by simp)
  | some pr =>
    obtain ⟨attr', upd⟩ := pr
    rw [hA] at h1
    dsimp only at h1
    cases hN : dlookup s.name kv1 with
    | none => rw [hN] at h1; exact absurd h1 (by simp)
    | some ns =>
      rw [hN] at h1
      dsimp only at h1
      obtain ⟨hdisp, hkeys, -⟩ :=
        updateAttrs_spec s.sensor_defs kv1 s.attr attr' upd hA
      have hdisp2 : ∀ p ∈ attr',
          display_string s.sensor_defs kv2 p.1 = some p.2 := by
        intro p hp
        have hk : p.1 ∈ dkeys s.attr := by
          have : p.1 ∈ attr'.map Prod.fst := List.mem_map_of_mem Prod.fst hp
          rw [hkeys] at this
          exact this
        rw [display_string_congr s.sensor_defs kv1 kv2 p.1 (hattr p.1 hk)]
        exact hdisp p hp
      have hnoop : updateAttrs s.sensor_defs kv2 attr' = some (attr', false) :=
        updateAttrs_noop s.sensor_defs kv2 attr' hdisp2
      have hN2 : dlookup s.name kv2 = some ns := by rw [hname, hN]
      by_cases hS : some ns ≠ s.state
      · rw [if_pos hS] at h1
        simp only [Option.some.injEq, Prod.mk.injEq] at h1
        obtain ⟨rfl, -⟩ := h1
        unfold SMAsensor.async_update_values
        dsimp only
        rw [hnoop]
        dsimp only
        rw [hN2]
        dsimp only
        rw [if_neg (fun hc => hc rfl)]
      · rw [if_neg hS] at h1
        simp only [Option.some.injEq, Prod.mk.injEq] at h1
        obtain ⟨rfl, -⟩ := h1
        unfold SMAsensor.async_update_values
        dsimp only
        rw [hnoop]
        dsimp only
        rw [hN2]
        dsimp only
        rw [if_neg hS]

/-- Witness for `sma_C5`: a second mapping that only changes an unrelated
key `"c"` leaves the sensor unchanged and unnotified. -/
theorem sma_C5_witness :
    (⟨"a", "k1", "W", some 5,
        [("a", ⟨"k1", "W", 1⟩), ("b", ⟨"k2", "kWh", 1000⟩)],
        [("b", "7 kWh")]⟩ : SMAsensor).async_update_values
      [("a", 5), ("b", 7), ("c", 99)] =
      some (⟨"a", "k1", "W", some 5,
        [("a", ⟨"k1", "W", 1⟩), ("b", ⟨"k2", "kWh", 1000⟩)],
        [("b", "7 kWh")]⟩, false) :=
  sma_C5
    ⟨"a", "k1", "W", none,
      [("a", ⟨"k1", "W", 1⟩), ("b", ⟨"k2", "kWh", 1000⟩)], [("b", "")]⟩
    ⟨"a", "k1", "W", some 5,
      [("a", ⟨"k1", "W", 1⟩), ("b", ⟨"k2", "kWh", 1000⟩)], [("b", "7 kWh")]⟩
    [("a", 5), ("b", 7)] [("a", 5), ("b", 7), ("c", 99)] true
    (by decide) (by decide) (by decide)

/-- C8. The registry built at setup is the 4-entry built-in table
overlaid with the user's custom entries — a custom entry of the same name
replaces the built-in one (the warning at line 92 is a log side effect,
not modelled) — and after pruning only names referenced by some
configured sensor remain, so only referenced definitions are ever polled
(`names_to_query` is drawn from the pruned registry). -/
theorem sma_C8 (conf : Config) (hnd : (dkeys conf.custom).Nodup)
    (name : String) :
    (dlookup name (sensor_defs_pruned conf) =
      if name ∈ used_sensors conf.sensors then
        (dlookup name conf.custom).or (dlookup name builtin_sensor_defs)
      else none) ∧
    (∀ n ∈ names_to_query conf, n ∈ used_sensors conf.sensors) := by
  constructor
  · unfold sensor_defs_pruned
    rw [dlookup_filter_key]
    by_cases hu : name ∈ used_sensors conf.sensors
    · rw [if_pos (List.elem_iff.mpr hu), if_pos hu]
      unfold sensor_defs_full
      rw [dlookup_foldl_dinsert name conf.custom builtin_sensor_defs hnd]
      cases dlookup name conf.custom <;> rfl
    · rw [if_neg ?_, if_neg hu]
      intro hc
      exact hu (List.elem_iff.mp hc)
  · intro n hn
    exact ((mem_dkeys_pruned n conf).mp hn).2

/-- Witness for `sma_C8`: with one configured sensor `total_yield` and no
custom entries, the pruned registry answers the built-in definition for
`total_yield`. -/
theorem sma_C8_witness :
    dlookup "total_yield" (sensor_defs_pruned ⟨[("total_yield", [])], []⟩) =
      some ⟨KEY_TOTAL_YIELD_KWH, "kWh", 1000⟩ := by
  have h := (sma_C8 ⟨[("total_yield", [])], []⟩ (by simp [dkeys])
    "total_yield").1
  rw [h]
  decide

/-- C9. Under a configuration accepted by the schema check, and
a poll result with one value per queried key: every sensor is constructed
(its constructor lookup succeeds), every sensor's name and attribute keys
are present in the pruned registry and in the per-tick result mapping,
and the whole update tick succeeds — no mapping lookup performed during
the update can fail. -/
theorem sma_C9 (conf : Config)
    (hvalid : check_sensor_schema conf = .ok conf)
    (raw : List (Option Int))
    (hlen : raw.length = (names_to_query conf).length) :
    ∃ sensors, setup_sensors conf = some sensors ∧
      (∀ s ∈ sensors, s.name ∈ dkeys (sensor_defs_pruned conf) ∧
        ∀ k ∈ dkeys s.attr, k ∈ dkeys (sensor_defs_pruned conf)) ∧
      ∃ res,
        compute_res (sensor_defs_pruned conf) (names_to_query conf)
          (substitute_missing raw) = some res ∧
        dkeys res = names_to_query conf ∧
        (∀ s ∈ sensors, s.name ∈ dkeys res ∧
          ∀ k ∈ dkeys s.attr, k ∈ dkeys res) ∧
        (∀ b : Int, b ≤ 1 →
          ∃ out, async_sma (sensor_defs_pruned conf) (names_to_query conf)
            sensors b (some raw) = some (b, true, out)) := by
  have hall := ((check_sensor_schema_ok_iff conf conf).mp hvalid).2
  have hsetup : ∀ p ∈ conf.sensors,
      p.1 ∈ dkeys (sensor_defs_full conf.custom) :=
    fun p hp => mem_valid_names_full p.1 conf (hall p hp).1
  obtain ⟨sensors, hloop, hspec⟩ :=
    setup_sensors_loop_some (sensor_defs_full conf.custom) conf.sensors hsetup
  have hmem : ∀ s ∈ sensors, s.name ∈ dkeys (sensor_defs_pruned conf) ∧
      ∀ k ∈ dkeys s.attr, k ∈ dkeys (sensor_defs_pruned conf) := by
    intro s hs
    obtain ⟨p, hp, hname, hdefs, hattr⟩ := hspec s hs
    obtain ⟨hv1, hv2⟩ := hall p hp
    constructor
    · rw [mem_dkeys_pruned, hname]
      exact ⟨mem_valid_names_full p.1 conf hv1,
        (mem_used_sensors p.1 conf.sensors).mpr ⟨p, hp, Or.inl rfl⟩⟩
    · intro k hk
      have hk2 : k ∈ p.2 := hattr k hk
      rw [mem_dkeys_pruned]
      exact ⟨mem_valid_names_full k conf (hv2 k hk2),
        (mem_used_sensors k conf.sensors).mpr ⟨p, hp, Or.inr hk2⟩⟩
  obtain ⟨res, hres, hkeys⟩ :=
    compute_res_some (sensor_defs_pruned conf) (names_to_query conf)
      (substitute_missing raw) (fun n hn => hn)
  have hreskeys : dkeys res = names_to_query conf := by
    rw [hkeys]
    have : (substitute_missing raw).length = (names_to_query conf).length := by
      simpa [substitute_missing] using hlen
    rw [this, List.take_length]
  have hmemres : ∀ s ∈ sensors, s.name ∈ dkeys res ∧
      ∀ k ∈ dkeys s.attr, k ∈ dkeys res := by
    intro s hs
    obtain ⟨h1, h2⟩ := hmem s hs
    rw [hreskeys]
    exact ⟨h1, fun k hk => h2 k hk⟩
  have hupdate : ∀ s ∈ sensors,
      (∀ p ∈ s.attr, p.1 ∈ dkeys res ∧ p.1 ∈ dkeys s.sensor_defs) ∧
        s.name ∈ dkeys res := by
    intro s hs
    obtain ⟨p, hp, hname, hdefs, hattr⟩ := hspec s hs
    obtain ⟨hv1, hv2⟩ := hall p hp
    obtain ⟨hr1, hr2⟩ := hmemres s hs
    refine ⟨?_, hr1⟩
    intro q hq
    have hqk : q.1 ∈ dkeys s.attr := List.mem_map_of_mem Prod.fst hq
    refine ⟨hr2 q.1 hqk, ?_⟩
    rw [hdefs]
    exact mem_valid_names_full q.1 conf (hv2 q.1 (hattr q.1 hqk))
  obtain ⟨out, hout⟩ := update_all_some res sensors hupdate
  refine ⟨sensors, by unfold setup_sensors; exact hloop, hmem,
    res, hres, hreskeys, hmemres, ?_⟩
  intro b hb
  refine ⟨out, ?_⟩
  unfold async_sma
  rw [if_neg (by omega)]
  dsimp only
  rw [hres]
  dsimp only
  rw [hout]

/-- Witness for `sma_C9`: the concrete configuration with one sensor
`total_yield` and the one-value poll result `[123456]`. -/
theorem sma_C9_witness :
    ∃ sensors,
      setup_sensors ⟨[("total_yield", [])], []⟩ = some sensors ∧
      (∀ s ∈ sensors,
        s.name ∈ dkeys (sensor_defs_pruned ⟨[("total_yield", [])], []⟩) ∧
        ∀ k ∈ dkeys s.attr,
          k ∈ dkeys (sensor_defs_pruned ⟨[("total_yield", [])], []⟩)) ∧
      ∃ res,
        compute_res (sensor_defs_pruned ⟨[("total_yield", [])], []⟩)
          (names_to_query ⟨[("total_yield", [])], []⟩)
          (substitute_missing [some 123456]) = some res ∧
        dkeys res = names_to_query ⟨[("total_yield", [])], []⟩ ∧
        (∀ s ∈ sensors, s.name ∈ dkeys res ∧
          ∀ k ∈ dkeys s.attr, k ∈ dkeys res) ∧
        (∀ b : Int, b ≤ 1 →
          ∃ out, async_sma (sensor_defs_pruned ⟨[("total_yield", [])], []⟩)
            (names_to_query ⟨[("total_yield", [])], []⟩)
            sensors b (some [some 123456]) = some (b, true, out)) :=
  sma_C9 ⟨[("total_yield", [])], []⟩ rfl [some 123456] (by decide)

end SMA
